import Mathlib

/-!
Shallow embedding of the mlflow-tracing TypeScript SDK core
(`src/core/trace_manager.ts`, `src/core/utils/index.ts`,
`src/core/entities/span.ts`, `src/exporters/mlflow.ts`)
together with theorems settling the specification claims.

JavaScript `Map` objects (and the string-keyed NodeCache buffer) are
embedded as association lists in insertion order: `set` replaces the value
in place when the key is present and appends otherwise, matching the
insertion-order iteration semantics of `Map`.
-/

namespace MlflowTracing

/-! ## Association-list model of JavaScript `Map` -/

variable {α : Type}

/-- `Map.get` / `NodeCache.get`: first entry with the key, if any. -/
def mapGet (m : List (String × α)) (k : String) : Option α :=
  (m.find? (fun p => p.1 = k)).map (fun p => p.2)

/-- `Map.has`. -/
def mapHas (m : List (String × α)) (k : String) : Bool :=
  (mapGet m k).isSome

/-- `Map.set` / `NodeCache.set`: replace in place when present, else append. -/
def mapSet (m : List (String × α)) (k : String) (v : α) : List (String × α) :=
  if mapHas m k then
    m.map (fun p => if p.1 = k then (k, v) else p)
  else
    m ++ [(k, v)]

/-- `Map.delete` / `NodeCache.del`: remove the first entry with the key. -/
def mapDel (m : List (String × α)) (k : String) : List (String × α) :=
  match m with
  | [] => []
  | p :: rest => if p.1 = k then rest else p :: mapDel rest k

theorem mapGet_nil (k : String) : mapGet ([] : List (String × α)) k = none := rfl

theorem mapGet_cons (p : String × α) (m : List (String × α)) (k : String) :
    mapGet (p :: m) k = if p.1 = k then some p.2 else mapGet m k := by
  by_cases h : p.1 = k <;> simp [mapGet, List.find?, h]

theorem mapGet_map_replace_ne (m : List (String × α)) (k k' : String) (v : α)
    (h : k' ≠ k) :
    mapGet (m.map (fun p => if p.1 = k then (k, v) else p)) k' = mapGet m k' := by
  induction m with
  | nil => rfl
  | cons p rest ih =>
    by_cases hp : p.1 = k
    · rw [List.map_cons, if_pos hp, mapGet_cons, mapGet_cons]
      rw [if_neg (show ¬ ((k, v).1 = k') from fun hh => h hh.symm)]
      rw [if_neg (show ¬ (p.1 = k') from fun hh => h (hp ▸ hh).symm)]
      exact ih
    · rw [List.map_cons, if_neg hp, mapGet_cons, mapGet_cons, ih]

theorem mapGet_map_replace_self (m : List (String × α)) (k : String) (v : α)
    (h : mapHas m k) :
    mapGet (m.map (fun p => if p.1 = k then (k, v) else p)) k = some v := by
  induction m with
  | nil => simp [mapHas, mapGet] at h
  | cons p rest ih =>
    by_cases hp : p.1 = k
    · simp [hp, mapGet_cons]
    · have h' : mapHas rest k := by
        simp only [mapHas, mapGet_cons, hp, if_false] at h
        exact h
      simp [hp, mapGet_cons, ih h']

theorem mapGet_append_not_found (m : List (String × α)) (k : String) (v : α)
    (h : ¬ mapHas m k) : mapGet (m ++ [(k, v)]) k = some v := by
  induction m with
  | nil => simp [mapGet_cons]
  | cons p rest ih =>
    have hp : ¬ (p.1 = k) := by
      intro hpk
      simp [mapHas, mapGet_cons, hpk] at h
    have h' : ¬ mapHas rest k := by
      simp only [mapHas, mapGet_cons, hp, if_false] at h
      exact h
    simp [List.cons_append, mapGet_cons, hp, ih h']

theorem mapGet_append_single_ne (m : List (String × α)) (k k' : String) (v : α)
    (h : k' ≠ k) : mapGet (m ++ [(k, v)]) k' = mapGet m k' := by
  induction m with
  | nil => simp [mapGet_cons, mapGet_nil, Ne.symm h]
  | cons p rest ih =>
    by_cases hpk : p.1 = k' <;> simp [List.cons_append, mapGet_cons, hpk, ih]

theorem mapGet_mapSet (m : List (String × α)) (k k' : String) (v : α) :
    mapGet (mapSet m k v) k' = if k' = k then some v else mapGet m k' := by
  unfold mapSet
  by_cases hhas : mapHas m k
  · by_cases hk : k' = k
    · subst hk
      simp [hhas, mapGet_map_replace_self m k' v hhas]
    · simp [hhas, hk, mapGet_map_replace_ne m k k' v hk]
  · by_cases hk : k' = k
    · subst hk
      have : ¬ mapHas m k' := hhas
      simp [hhas, mapGet_append_not_found m k' v this]
    · simp [hhas, hk, mapGet_append_single_ne m k k' v hk]

theorem mapGet_mapSet_self (m : List (String × α)) (k : String) (v : α) :
    mapGet (mapSet m k v) k = some v := by
  simp [mapGet_mapSet]

theorem mapGet_mapSet_ne (m : List (String × α)) (k k' : String) (v : α) (h : k' ≠ k) :
    mapGet (mapSet m k v) k' = mapGet m k' := by
  simp [mapGet_mapSet, h]

theorem mapGet_mapDel (m : List (String × α)) (k k' : String) (h : k' ≠ k) :
    mapGet (mapDel m k) k' = mapGet m k' := by
  induction m with
  | nil => rfl
  | cons p rest ih =>
    rw [mapDel]
    by_cases hp : p.1 = k
    · rw [if_pos hp, mapGet_cons]
      rw [if_neg (show ¬ (p.1 = k') from fun hh => h (hp ▸ hh).symm)]
    · rw [if_neg hp, mapGet_cons, mapGet_cons, ih]

theorem mapGet_mapDel_self_of_none (m : List (String × α)) (k : String)
    (h : mapGet m k = none) : mapGet (mapDel m k) k = none := by
  induction m with
  | nil => rfl
  | cons p rest ih =>
    by_cases hp : p.1 = k
    · simp [mapGet_cons, hp] at h
    · simp only [mapGet_cons, hp, if_false] at h
      simp [mapDel, hp, mapGet_cons, ih h]

/-- Invariant of every real JavaScript `Map`: keys are pairwise distinct. -/
def keysUnique (m : List (String × α)) : Prop :=
  (m.map Prod.fst).Nodup

instance (m : List (String × α)) : Decidable (keysUnique m) := by
  unfold keysUnique; infer_instance

theorem mapGet_eq_none_of_not_mem (m : List (String × α)) (k : String)
    (h : k ∉ m.map Prod.fst) : mapGet m k = none := by
  induction m with
  | nil => rfl
  | cons p rest ih =>
    simp only [List.map_cons, List.mem_cons, not_or] at h
    rw [mapGet_cons, if_neg (fun hh => h.1 hh.symm)]
    exact ih h.2

theorem mapGet_mapDel_self (m : List (String × α)) (k : String)
    (h : keysUnique m) : mapGet (mapDel m k) k = none := by
  induction m with
  | nil => rfl
  | cons p rest ih =>
    rw [mapDel]
    unfold keysUnique at h
    simp only [List.map_cons, List.nodup_cons] at h
    by_cases hp : p.1 = k
    · rw [if_pos hp]
      exact mapGet_eq_none_of_not_mem rest k (hp ▸ h.1)
    · rw [if_neg hp, mapGet_cons, if_neg hp]
      exact ih h.2

theorem keysUnique_nil : keysUnique ([] : List (String × α)) := List.nodup_nil

theorem mapHas_of_mem_keys (m : List (String × α)) (k : String)
    (h : k ∈ m.map Prod.fst) : mapHas m k := by
  induction m with
  | nil => simp at h
  | cons p rest ih =>
    simp only [List.map_cons, List.mem_cons] at h
    simp only [mapHas, mapGet_cons]
    by_cases hp : p.1 = k
    · simp [hp]
    · simp only [hp, if_false]
      rcases h with h | h
      · exact absurd h.symm hp
      · exact ih h

theorem keysUnique_mapSet (m : List (String × α)) (k : String) (v : α)
    (h : keysUnique m) : keysUnique (mapSet m k v) := by
  unfold mapSet
  by_cases hhas : mapHas m k
  · rw [if_pos hhas]
    unfold keysUnique at h ⊢
    have : (m.map (fun p => if p.1 = k then (k, v) else p)).map Prod.fst = m.map Prod.fst := by
      rw [List.map_map]
      apply List.map_congr_left
      intro p _
      by_cases hp : p.1 = k <;> simp [hp]
    rw [this]; exact h
  · rw [if_neg hhas]
    unfold keysUnique at h ⊢
    rw [List.map_append]
    simp only [List.map_cons, List.map_nil]
    rw [List.nodup_append]
    refine ⟨h, List.nodup_singleton k, ?_⟩
    intro a ha
    simp only [List.mem_singleton]
    intro hak
    exact hhas (hak ▸ mapHas_of_mem_keys m a ha)

/-! ## JSON values and the `JSON.stringify` / `JSON.parse` codec

The attribute registry serializes every attribute value with
`JSON.stringify` on `set` and deserializes with `JSON.parse` on `get`
(`span.ts`, `_SpanAttributesRegistry`). The JavaScript builtins are external
to the repository; they are modelled here by an executable printer and
parser over a tagged JSON value type (numbers modelled as integers). -/

/-- JSON-serializable JavaScript values. -/
inductive JsonValue where
  | null : JsonValue
  | bool (b : Bool) : JsonValue
  | num (n : Int) : JsonValue
  | str (s : String) : JsonValue
  | arr (elems : List JsonValue) : JsonValue
  | obj (fields : List (String × JsonValue)) : JsonValue
deriving Repr

/-- Escape the characters that `JSON.stringify` must escape inside a string
literal (the model escapes quote and backslash). -/
def escapeChars : List Char → List Char
  | [] => []
  | c :: cs =>
    if c = '"' ∨ c = '\\' then '\\' :: c :: escapeChars cs
    else c :: escapeChars cs

/-- One decimal digit as a character. -/
def digitToChar (d : Nat) : Char :=
  if d = 0 then '0' else if d = 1 then '1' else if d = 2 then '2'
  else if d = 3 then '3' else if d = 4 then '4' else if d = 5 then '5'
  else if d = 6 then '6' else if d = 7 then '7' else if d = 8 then '8'
  else '9'

/-- Decimal printing of a natural number. -/
def printNatChars (n : Nat) : List Char :=
  if n = 0 then ['0'] else (Nat.digits 10 n).reverse.map digitToChar

/-- Decimal printing of an integer. -/
def printIntChars : Int → List Char
  | Int.ofNat m => printNatChars m
  | Int.negSucc m => '-' :: printNatChars (m + 1)

/-- A quoted, escaped JSON string literal. -/
def printStringChars (s : String) : List Char :=
  '"' :: (escapeChars s.toList ++ ['"'])

/-- The keyword `null` as characters. -/
def nullChars : List Char := ['n', 'u', 'l', 'l']

/-- The keyword `true` as characters. -/
def trueChars : List Char := ['t', 'r', 'u', 'e']

/-- The keyword `false` as characters. -/
def falseChars : List Char := ['f', 'a', 'l', 's', 'e']

mutual

/-- The character stream `JSON.stringify` produces for a value. -/
def printValue : JsonValue → List Char
  | .null => nullChars
  | .bool b => if b then trueChars else falseChars
  | .num n => printIntChars n
  | .str s => printStringChars s
  | .arr es => '[' :: (printElems es ++ [']'])
  | .obj fs => '\x7b' :: (printFields fs ++ ['\x7d'])

/-- Comma-separated array elements. -/
def printElems : List JsonValue → List Char
  | [] => []
  | [e] => printValue e
  | e :: rest => printValue e ++ ',' :: printElems rest

/-- Comma-separated `"key":value` object fields. -/
def printFields : List (String × JsonValue) → List Char
  | [] => []
  | [(k, v)] => printStringChars k ++ ':' :: printValue v
  | (k, v) :: rest => printStringChars k ++ ':' :: printValue v ++ ',' :: printFields rest

end

/-- The string `JSON.stringify` produces. -/
def stringify (v : JsonValue) : String :=
  String.mk (printValue v)

/-- Scan a JSON string literal body up to its closing quote, undoing
escapes; returns the decoded characters and the remaining input. -/
def unescapeStr : List Char → Option (List Char × List Char)
  | [] => none
  | c :: rest =>
    if c = '"' then some ([], rest)
    else if c = '\\' then
      match rest with
      | [] => none
      | d :: rest2 => (unescapeStr rest2).map (fun p => (d :: p.1, p.2))
    else (unescapeStr rest).map (fun p => (c :: p.1, p.2))
termination_by cs => cs.length
decreasing_by all_goals simp_wf <;> omega

/-- Longest prefix of decimal digits, with the remaining input. -/
def takeDigits : List Char → List Char × List Char
  | [] => ([], [])
  | c :: cs =>
    if c.isDigit then
      let r := takeDigits cs
      (c :: r.1, r.2)
    else ([], c :: cs)

/-- Value of a digit string, most significant first. -/
def digitsToNat (ds : List Char) : Nat :=
  ds.foldl (fun a c => a * 10 + (c.toNat - 48)) 0

/-- Parse a nonempty run of decimal digits. -/
def parseNat (cs : List Char) : Option (Nat × List Char) :=
  let r := takeDigits cs
  if r.1.isEmpty then none else some (digitsToNat r.1, r.2)

/-- Consume an expected literal character sequence. -/
def dropLit : List Char → List Char → Option (List Char)
  | [], input => some input
  | _ :: _, [] => none
  | l :: ls, c :: cs => if c = l then dropLit ls cs else none

mutual

/-- Fuel-indexed JSON value parser (model of `JSON.parse`). -/
def parseValue : Nat → List Char → Option (JsonValue × List Char)
  | 0, _ => none
  | Nat.succ fuel, cs =>
    match cs with
    | [] => none
    | c :: rest =>
      if c = 'n' then (dropLit ['u', 'l', 'l'] rest).map (fun r => (JsonValue.null, r))
      else if c = 't' then (dropLit ['r', 'u', 'e'] rest).map (fun r => (JsonValue.bool true, r))
      else if c = 'f' then (dropLit ['a', 'l', 's', 'e'] rest).map (fun r => (JsonValue.bool false, r))
      else if c = '"' then
        (unescapeStr rest).map (fun p => (JsonValue.str (String.mk p.1), p.2))
      else if c = '[' then
        match rest with
        | [] => none
        | d :: rest2 =>
          if d = ']' then some (JsonValue.arr [], rest2)
          else
            match parseElems fuel rest with
            | some (es, rest3) => some (JsonValue.arr es, rest3)
            | none => none
      else if c = '\x7b' then
        match rest with
        | [] => none
        | d :: rest2 =>
          if d = '\x7d' then some (JsonValue.obj [], rest2)
          else
            match parseFields fuel rest with
            | some (fs, rest3) => some (JsonValue.obj fs, rest3)
            | none => none
      else if c = '-' then
        match parseNat rest with
        | some (n, rest2) => some (JsonValue.num (-(n : Int)), rest2)
        | none => none
      else
        match parseNat (c :: rest) with
        | some (n, rest2) => some (JsonValue.num (n : Int), rest2)
        | none => none

/-- Parse one or more comma-separated values and the closing bracket. -/
def parseElems : Nat → List Char → Option (List JsonValue × List Char)
  | 0, _ => none
  | Nat.succ fuel, cs =>
    match parseValue fuel cs with
    | none => none
    | some (v, rest) =>
      match rest with
      | [] => none
      | c :: rest2 =>
        if c = ',' then
          match parseElems fuel rest2 with
          | some (es, rest3) => some (v :: es, rest3)
          | none => none
        else if c = ']' then some ([v], rest2)
        else none

/-- Parse one or more comma-separated fields and the closing brace. -/
def parseFields : Nat → List Char → Option (List (String × JsonValue) × List Char)
  | 0, _ => none
  | Nat.succ fuel, cs =>
    match cs with
    | [] => none
    | c :: rest =>
      if c = '"' then
        match unescapeStr rest with
        | none => none
        | some (key, rest2) =>
          match rest2 with
          | [] => none
          | d :: rest3 =>
            if d = ':' then
              match parseValue fuel rest3 with
              | none => none
              | some (v, rest4) =>
                match rest4 with
                | [] => none
                | e :: rest5 =>
                  if e = ',' then
                    match parseFields fuel rest5 with
                    | some (fs, rest6) => some ((String.mk key, v) :: fs, rest6)
                    | none => none
                  else if e = '\x7d' then some ([(String.mk key, v)], rest5)
                  else none
            else none
      else none

end

/-- Model of `JSON.parse`: parse the whole input, failing on leftovers.
The fuel is an embedding artifact; `2 * length + 1` suffices for every
string `JSON.stringify` can produce. -/
def parseJson (s : String) : Option JsonValue :=
  match parseValue (2 * s.toList.length + 1) s.toList with
  | some (v, []) => some v
  | _ => none

/-! ### Round trip of the JSON codec -/

theorem string_mk_toList (s : String) : String.mk s.toList = s := by
  cases s; rfl

theorem unescapeStr_escape (cs rest : List Char) :
    unescapeStr (escapeChars cs ++ ('"' :: rest)) = some (cs, rest) := by
  induction cs with
  | nil =>
    show unescapeStr ('"' :: rest) = some ([], rest)
    rw [unescapeStr.eq_def]
    simp
  | cons c cs2 ih =>
    rw [escapeChars]
    by_cases hc : c = '"' ∨ c = '\\'
    · rw [if_pos hc, List.cons_append, List.cons_append]
      rw [unescapeStr.eq_def]
      simp only [if_neg (by decide : ¬ (('\\' : Char) = '"')), if_pos rfl]
      rw [ih]
      rfl
    · rw [if_neg hc]
      push_neg at hc
      rw [List.cons_append, unescapeStr.eq_def]
      simp only [if_neg hc.1, if_neg hc.2]
      rw [ih]
      rfl

theorem digitToChar_isDigit (d : Nat) : (digitToChar d).isDigit = true := by
  unfold digitToChar
  split_ifs <;> decide

theorem digitToChar_toNat (d : Nat) (h : d < 10) : (digitToChar d).toNat - 48 = d := by
  interval_cases d <;> decide

theorem printNatChars_ne_nil (n : Nat) : printNatChars n ≠ [] := by
  unfold printNatChars
  by_cases h : n = 0
  · subst h; decide
  · simp only [h, if_false]
    intro hcontra
    rw [List.map_eq_nil_iff, List.reverse_eq_nil_iff] at hcontra
    exact Nat.digits_ne_nil_iff_ne_zero.mpr h hcontra

theorem printNatChars_all_digits (n : Nat) :
    ∀ c ∈ printNatChars n, c.isDigit = true := by
  unfold printNatChars
  by_cases h : n = 0
  · subst h
    intro c hc
    have hc0 : c = '0' := by simpa [printNatChars] using hc
    subst hc0; decide
  · simp only [h, if_false]
    intro c hc
    obtain ⟨d, _, rfl⟩ := List.mem_map.mp hc
    exact digitToChar_isDigit d

/-- Whether the input does not continue with a decimal digit (the boundary
condition number parsing needs). -/
def headNotDigit : List Char → Bool
  | [] => true
  | c :: _ => !c.isDigit

theorem takeDigits_append (ds rest : List Char)
    (h : ∀ c ∈ ds, c.isDigit = true) (hr : headNotDigit rest = true) :
    takeDigits (ds ++ rest) = (ds, rest) := by
  induction ds with
  | nil =>
    cases rest with
    | nil => rfl
    | cons c cs =>
      simp only [headNotDigit, Bool.not_eq_true'] at hr
      simp [takeDigits, hr]
  | cons c ds2 ih =>
    have hc : c.isDigit = true := h c (List.mem_cons_self c ds2)
    have h2 : ∀ x ∈ ds2, x.isDigit = true := fun x hx => h x (List.mem_cons_of_mem c hx)
    simp [takeDigits, hc, ih h2]

theorem digitsToNat_printNatChars (n : Nat) :
    digitsToNat (printNatChars n) = n := by
  unfold printNatChars
  by_cases h : n = 0
  · subst h; decide
  · simp only [h, if_false]
    unfold digitsToNat
    rw [List.map_reverse, List.foldl_reverse, List.foldr_map]
    have hlt : ∀ d ∈ Nat.digits 10 n, d < 10 := fun d hd =>
      Nat.digits_lt_base (by norm_num) hd
    have step : ∀ (l : List Nat), (∀ d ∈ l, d < 10) →
        List.foldr (fun d a => a * 10 + ((digitToChar d).toNat - 48)) 0 l =
          Nat.ofDigits 10 l := by
      intro l
      induction l with
      | nil => intro _; rfl
      | cons d l2 ih2 =>
        intro hl
        have hd : d < 10 := hl d (List.mem_cons_self d l2)
        have hl2 : ∀ x ∈ l2, x < 10 := fun x hx => hl x (List.mem_cons_of_mem d hx)
        simp only [List.foldr_cons, ih2 hl2, Nat.ofDigits_cons,
          digitToChar_toNat d hd]
        ring
    have hs := step (Nat.digits 10 n) hlt
    simp only [Function.comp] at hs ⊢
    rw [hs, Nat.ofDigits_digits]

theorem parseNat_print (n : Nat) (rest : List Char) (hr : headNotDigit rest = true) :
    parseNat (printNatChars n ++ rest) = some (n, rest) := by
  unfold parseNat
  rw [takeDigits_append (printNatChars n) rest (printNatChars_all_digits n) hr]
  simp only [List.isEmpty_iff]
  rw [if_neg (printNatChars_ne_nil n)]
  rw [digitsToNat_printNatChars]

mutual

/-- Fuel needed by `parseValue` on the printed form of a value. -/
def jsize : JsonValue → Nat
  | .arr es => 1 + elemsSize es
  | .obj fs => 1 + fieldsSize fs
  | _ => 1

/-- Fuel needed by `parseElems` on printed array elements. -/
def elemsSize : List JsonValue → Nat
  | [] => 1
  | e :: rest => 1 + jsize e + elemsSize rest

/-- Fuel needed by `parseFields` on printed object fields. -/
def fieldsSize : List (String × JsonValue) → Nat
  | [] => 1
  | f :: rest => 1 + jsize f.2 + fieldsSize rest

end

theorem jsize_pos (v : JsonValue) : 1 ≤ jsize v := by
  cases v <;> simp [jsize]

theorem elemsSize_pos (es : List JsonValue) : 1 ≤ elemsSize es := by
  cases es <;> simp [elemsSize] <;> omega

theorem fieldsSize_pos (fs : List (String × JsonValue)) : 1 ≤ fieldsSize fs := by
  cases fs <;> simp [fieldsSize] <;> omega

/-- The boundary condition `parseValue` needs from its continuation: only a
printed number cares about what follows (it must not continue with a digit). -/
def numDelim : JsonValue → List Char → Prop
  | .num _, rest => headNotDigit rest = true
  | _, _ => True

theorem numDelim_cons (v : JsonValue) (c : Char) (r : List Char)
    (h : c.isDigit = false) : numDelim v (c :: r) := by
  cases v <;> simp [numDelim, headNotDigit, h]

theorem isDigit_ne (c x : Char) (hc : c.isDigit = true) (hx : x.isDigit = false) :
    ¬ (c = x) := by
  intro h
  rw [h, hx] at hc
  exact Bool.noConfusion hc

/-- Every printed value is nonempty and starts with a character other than
a closing bracket, closing brace, comma or colon. -/
def goodHead : List Char → Prop
  | [] => False
  | c :: _ => c ≠ ']' ∧ c ≠ '\x7d' ∧ c ≠ ',' ∧ c ≠ ':'

theorem printValue_goodHead (v : JsonValue) : goodHead (printValue v) := by
  cases v with
  | null => simp [printValue, nullChars, goodHead]
  | bool b => cases b <;> simp [printValue, trueChars, falseChars, goodHead]
  | num n =>
    cases n with
    | ofNat m =>
      show goodHead (printNatChars m)
      cases hp : printNatChars m with
      | nil => exact absurd hp (printNatChars_ne_nil m)
      | cons c cs =>
        have hc : c.isDigit = true :=
          printNatChars_all_digits m c (hp ▸ List.mem_cons_self c cs)
        exact ⟨isDigit_ne c ']' hc (by decide), isDigit_ne c '\x7d' hc (by decide),
          isDigit_ne c ',' hc (by decide), isDigit_ne c ':' hc (by decide)⟩
    | negSucc m => simp [printValue, printIntChars, goodHead]
  | str s => simp [printValue, printStringChars, goodHead]
  | arr es => simp [printValue, goodHead]
  | obj fs => simp [printValue, goodHead]


theorem printElems_cons_shape (e : JsonValue) (es2 : List JsonValue) :
    ∃ t, printElems (e :: es2) = printValue e ++ t := by
  cases es2 with
  | nil => exact ⟨[], by simp [printElems]⟩
  | cons e2 es3 => exact ⟨',' :: printElems (e2 :: es3), rfl⟩

theorem printFields_cons_shape (f : String × JsonValue) (fs2 : List (String × JsonValue)) :
    ∃ t, printFields (f :: fs2) = '"' :: (escapeChars f.1.toList ++ ('"' :: (':' :: (printValue f.2 ++ t)))) := by
  cases fs2 with
  | nil =>
    refine ⟨[], ?_⟩
    show printFields [(f.1, f.2)] = _
    rw [printFields]
    simp [printStringChars]
  | cons f2 fs3 =>
    refine ⟨',' :: printFields (f2 :: fs3), ?_⟩
    show printFields ((f.1, f.2) :: f2 :: fs3) = _
    rw [printFields]
    · simp [printStringChars]
    · simp

theorem parse_print (fuel : Nat) :
    (∀ v rest, jsize v ≤ fuel → numDelim v rest →
        parseValue fuel (printValue v ++ rest) = some (v, rest)) ∧
    (∀ es rest, es ≠ [] → elemsSize es ≤ fuel →
        parseElems fuel (printElems es ++ (']' :: rest)) = some (es, rest)) ∧
    (∀ fs rest, fs ≠ [] → fieldsSize fs ≤ fuel →
        parseFields fuel (printFields fs ++ ('\x7d' :: rest)) = some (fs, rest)) := by
  induction fuel with
  | zero =>
    refine ⟨?_, ?_, ?_⟩
    · intro v rest hsz _
      exact absurd hsz (by have := jsize_pos v; omega)
    · intro es rest _ hsz
      exact absurd hsz (by have := elemsSize_pos es; omega)
    · intro fs rest _ hsz
      exact absurd hsz (by have := fieldsSize_pos fs; omega)
  | succ fuel ih =>
    obtain ⟨ihv, ihe, ihf⟩ := ih
    refine ⟨?_, ?_, ?_⟩
    · intro v rest hsz hd
      cases v with
      | null => simp [printValue, nullChars, parseValue, dropLit]
      | bool b => cases b <;> simp [printValue, trueChars, falseChars, parseValue, dropLit]
      | num n =>
        have hdd : headNotDigit rest = true := hd
        cases n with
        | ofNat m =>
          have hpn : parseNat (printNatChars m ++ rest) = some (m, rest) :=
            parseNat_print m rest hdd
          show parseValue (fuel + 1) (printNatChars m ++ rest) = _
          cases hp : printNatChars m with
          | nil => exact absurd hp (printNatChars_ne_nil m)
          | cons c cs =>
            have hc : c.isDigit = true :=
              printNatChars_all_digits m c (hp ▸ List.mem_cons_self c cs)
            rw [hp] at hpn
            rw [List.cons_append] at hpn ⊢
            simp [parseValue, hpn,
              isDigit_ne c 'n' hc (by decide), isDigit_ne c 't' hc (by decide),
              isDigit_ne c 'f' hc (by decide), isDigit_ne c '"' hc (by decide),
              isDigit_ne c '[' hc (by decide), isDigit_ne c '\x7b' hc (by decide),
              isDigit_ne c '-' hc (by decide)]
        | negSucc m =>
          have hpn : parseNat (printNatChars (m + 1) ++ rest) = some (m + 1, rest) :=
            parseNat_print (m + 1) rest hdd
          show parseValue (fuel + 1) (('-' :: printNatChars (m + 1)) ++ rest) = _
          rw [List.cons_append]
          simp only [parseValue]
          simp [hpn, Int.negSucc_eq]
      | str s =>
        show parseValue (fuel + 1) (('"' :: (escapeChars s.toList ++ ['"'])) ++ rest) = _
        rw [List.cons_append, List.append_assoc, List.singleton_append]
        simp [parseValue, unescapeStr_escape, string_mk_toList]
      | arr es =>
        cases es with
        | nil =>
          show parseValue (fuel + 1) (('[' :: (printElems [] ++ [']'])) ++ rest) = _
          simp [printElems, parseValue]
        | cons e es2 =>
          have hsz2 : elemsSize (e :: es2) ≤ fuel := by
            simp only [jsize] at hsz; omega
          have he := ihe (e :: es2) rest (by simp) hsz2
          obtain ⟨t, ht⟩ := printElems_cons_shape e es2
          have hgh := printValue_goodHead e
          cases hpv : printValue e with
          | nil => rw [hpv] at hgh; exact absurd hgh (by simp [goodHead])
          | cons c cs =>
            rw [hpv] at hgh
            obtain ⟨hc1, hc2, hc3, hc4⟩ := hgh
            show parseValue (fuel + 1) (('[' :: (printElems (e :: es2) ++ [']'])) ++ rest) = _
            rw [ht, hpv] at he
            simp only [List.cons_append, List.append_assoc, List.singleton_append] at he
            rw [ht, hpv]
            simp only [List.cons_append, List.append_assoc, List.singleton_append]
            simp [parseValue, hc1, he]
      | obj fs =>
        cases fs with
        | nil =>
          show parseValue (fuel + 1) (('\x7b' :: (printFields [] ++ ['\x7d'])) ++ rest) = _
          simp [printFields, parseValue]
        | cons f fs2 =>
          have hsz2 : fieldsSize (f :: fs2) ≤ fuel := by
            simp only [jsize] at hsz; omega
          have hf := ihf (f :: fs2) rest (by simp) hsz2
          obtain ⟨t, ht⟩ := printFields_cons_shape f fs2
          show parseValue (fuel + 1) (('\x7b' :: (printFields (f :: fs2) ++ ['\x7d'])) ++ rest) = _
          rw [ht] at hf
          simp only [List.cons_append, List.append_assoc, List.singleton_append] at hf
          rw [ht]
          simp only [List.cons_append, List.append_assoc, List.singleton_append]
          simp only [String.toList] at hf
          simp [parseValue, hf]
    · intro es rest hne hsz
      cases es with
      | nil => exact absurd rfl hne
      | cons e es2 =>
        cases es2 with
        | nil =>
          have hje : jsize e ≤ fuel := by simp only [elemsSize] at hsz; omega
          have hv := ihv e (']' :: rest) hje (numDelim_cons e ']' rest (by decide))
          show parseElems (fuel + 1) (printValue e ++ (']' :: rest)) = _
          simp [parseElems, hv]
        | cons e2 es3 =>
          have hje : jsize e ≤ fuel := by
            simp only [elemsSize] at hsz
            omega
          have hse : elemsSize (e2 :: es3) ≤ fuel := by
            simp only [elemsSize] at hsz ⊢
            have := jsize_pos e; omega
          have hv := ihv e (',' :: (printElems (e2 :: es3) ++ (']' :: rest))) hje
            (numDelim_cons e ',' _ (by decide))
          have he2 := ihe (e2 :: es3) rest (by simp) hse
          show parseElems (fuel + 1)
            ((printValue e ++ (',' :: printElems (e2 :: es3))) ++ (']' :: rest)) = _
          rw [List.append_assoc, List.cons_append]
          simp [parseElems, hv, he2]
    · intro fs rest hne hsz
      cases fs with
      | nil => exact absurd rfl hne
      | cons f fs2 =>
        have hjv : jsize f.2 ≤ fuel := by
          simp only [fieldsSize] at hsz
          have := fieldsSize_pos fs2; omega
        cases fs2 with
        | nil =>
          have hv := ihv f.2 ('\x7d' :: rest) hjv (numDelim_cons f.2 '\x7d' rest (by decide))
          show parseFields (fuel + 1)
            ((printStringChars f.1 ++ (':' :: printValue f.2)) ++ ('\x7d' :: rest)) = _
          rw [printStringChars]
          simp only [List.cons_append, List.append_assoc, List.singleton_append]
          simp [parseFields, unescapeStr_escape, hv, string_mk_toList]
        | cons f2 fs3 =>
          have hsf : fieldsSize (f2 :: fs3) ≤ fuel := by
            simp only [fieldsSize] at hsz ⊢
            have := jsize_pos f.2; omega
          have hv := ihv f.2 (',' :: (printFields (f2 :: fs3) ++ ('\x7d' :: rest))) hjv
            (numDelim_cons f.2 ',' _ (by decide))
          have hf2 := ihf (f2 :: fs3) rest (by simp) hsf
          have heq : printFields (f :: f2 :: fs3) =
              printStringChars f.1 ++ ':' :: printValue f.2 ++ ',' :: printFields (f2 :: fs3) := by
            rw [printFields]
            all_goals simp
          rw [heq, printStringChars]
          simp only [List.cons_append, List.append_assoc, List.singleton_append]
          simp [parseFields, unescapeStr_escape, hv, hf2, string_mk_toList]

mutual

theorem jsize_le_length : (v : JsonValue) → jsize v ≤ 2 * (printValue v).length
  | .null => by simp [jsize, printValue, nullChars]
  | .bool b => by cases b <;> simp [jsize, printValue, trueChars, falseChars]
  | .num n => by
    have h1 : 1 ≤ (printIntChars n).length := by
      cases n with
      | ofNat m =>
        show 1 ≤ (printNatChars m).length
        cases hp : printNatChars m with
        | nil => exact absurd hp (printNatChars_ne_nil m)
        | cons c cs => simp
      | negSucc m => simp [printIntChars]
    show jsize (.num n) ≤ 2 * (printIntChars n).length
    simp [jsize]; omega
  | .str s => by
    show jsize (.str s) ≤ 2 * (printStringChars s).length
    simp only [jsize, printStringChars, List.length_cons, List.length_append,
      List.length_singleton]
    omega
  | .arr es => by
    have h := elemsSize_le_length es
    show jsize (.arr es) ≤ 2 * ('[' :: (printElems es ++ [']'])).length
    simp only [jsize, List.length_cons, List.length_append, List.length_singleton]
    omega
  | .obj fs => by
    have h := fieldsSize_le_length fs
    show jsize (.obj fs) ≤ 2 * ('\x7b' :: (printFields fs ++ ['\x7d'])).length
    simp only [jsize, List.length_cons, List.length_append, List.length_singleton]
    omega

theorem elemsSize_le_length :
    (es : List JsonValue) → elemsSize es ≤ 2 * (printElems es).length + 2
  | [] => by simp [elemsSize]
  | [e] => by
    have h := jsize_le_length e
    show elemsSize [e] ≤ 2 * (printValue e).length + 2
    simp only [elemsSize]
    omega
  | e :: e2 :: es3 => by
    have h1 := jsize_le_length e
    have h2 := elemsSize_le_length (e2 :: es3)
    have h3 : elemsSize (e2 :: es3) = 1 + jsize e2 + elemsSize es3 := by
      simp [elemsSize]
    show elemsSize (e :: e2 :: es3) ≤
      2 * (printValue e ++ ',' :: printElems (e2 :: es3)).length + 2
    simp only [elemsSize, List.length_append, List.length_cons]
    omega

theorem fieldsSize_le_length :
    (fs : List (String × JsonValue)) → fieldsSize fs ≤ 2 * (printFields fs).length + 2
  | [] => by simp [fieldsSize]
  | [(k, v)] => by
    have h := jsize_le_length v
    show fieldsSize [(k, v)] ≤ 2 * (printStringChars k ++ ':' :: printValue v).length + 2
    simp only [fieldsSize, List.length_append, List.length_cons]
    omega
  | (k, v) :: f2 :: fs3 => by
    have h1 := jsize_le_length v
    have h2 := fieldsSize_le_length (f2 :: fs3)
    have h3 : fieldsSize (f2 :: fs3) = 1 + jsize f2.2 + fieldsSize fs3 := by
      simp [fieldsSize]
    show fieldsSize ((k, v) :: f2 :: fs3) ≤
      2 * (printStringChars k ++ ':' :: printValue v ++ ',' :: printFields (f2 :: fs3)).length + 2
    simp only [fieldsSize, List.length_append, List.length_cons]
    omega

end

/-- Round trip of the modelled JSON codec: `JSON.parse(JSON.stringify(v))`
recovers `v` for every JSON-serializable value. -/
theorem parseJson_stringify (v : JsonValue) : parseJson (stringify v) = some v := by
  unfold parseJson stringify
  have hl : (String.mk (printValue v)).toList = printValue v := rfl
  rw [hl]
  have hfuel : jsize v ≤ 2 * (printValue v).length + 1 := by
    have := jsize_le_length v; omega
  have hp := (parse_print (2 * (printValue v).length + 1)).1 v [] hfuel
    (by cases v <;> simp [numDelim, headNotDigit])
  rw [List.append_nil] at hp
  rw [hp]

/-! ## Span attribute registries (`span.ts`)

`_SpanAttributesRegistry` serializes on `set` and deserializes on `get`;
`_CachedSpanAttributesRegistry` adds an LRU read cache of capacity 128 and
rejects `set`. -/

/-- A value as stored in the underlying OTel span attribute bag. The
registry always stores serialized strings; spans rebuilt from JSON
(`Span.fromJson`) hold already-parsed values, which `get` returns as-is
(its `typeof serializedValue === 'string'` guard). -/
inductive OtelAttrVal where
  | str (s : String)
  | other (v : JsonValue)
deriving Repr

/-- The attribute bag of an OTel span. -/
abbrev OtelAttrs : Type := List (String × OtelAttrVal)

/-- `_SpanAttributesRegistry.get`: read the stored value; a nonempty string
is `JSON.parse`d, falling back to the raw string when parsing fails; an
empty string fails the JS truthiness guard and is returned raw; `undefined`
propagates. -/
def registryGet (attrs : OtelAttrs) (key : String) : Option JsonValue :=
  match mapGet attrs key with
  | none => none
  | some (OtelAttrVal.str s) =>
    if s = "" then some (JsonValue.str s)
    else
      match parseJson s with
      | some v => some v
      | none => some (JsonValue.str s)
  | some (OtelAttrVal.other v) => some v

/-- `_SpanAttributesRegistry.set`: store `JSON.stringify(value)` under the
key (string-typed keys are enforced by the embedding). -/
def registrySet (attrs : OtelAttrs) (key : String) (value : JsonValue) : OtelAttrs :=
  mapSet attrs key (OtelAttrVal.str (stringify value))

theorem stringify_ne_empty (v : JsonValue) : stringify v ≠ "" := by
  have hgh := printValue_goodHead v
  cases hpv : printValue v with
  | nil => rw [hpv] at hgh; exact absurd hgh (by simp [goodHead])
  | cons c cs =>
    unfold stringify
    rw [hpv]
    intro h
    exact List.noConfusion (congrArg String.data h)

/-- Cache state of `_CachedSpanAttributesRegistry`: a JS `Map` in insertion
order, least recently used first. -/
abbrev AttrCache : Type := List (String × Option JsonValue)

/-- `_CachedSpanAttributesRegistry.get` with LRU caching (maxsize 128): a
hit is re-inserted at the most-recently-used end; a miss reads through the
base registry, evicting the least-recently-used entry at capacity. -/
def cachedGet (attrs : OtelAttrs) (cache : AttrCache) (key : String) :
    Option JsonValue × AttrCache :=
  match mapGet cache key with
  | some v => (v, mapSet (mapDel cache key) key v)
  | none =>
    let v := registryGet attrs key
    let cache1 :=
      if 128 ≤ cache.length then
        match cache with
        | [] => cache
        | p :: _ => mapDel cache p.1
      else cache
    (v, mapSet cache1 key v)

/-- `_CachedSpanAttributesRegistry.set`: always throws; the state is
untouched. -/
def cachedSet (attrs : OtelAttrs) (cache : AttrCache) (_key : String)
    (_value : JsonValue) : Except String (OtelAttrs × AttrCache) :=
  Except.error "The attributes of the immutable span must not be updated."

theorem mapDel_length_of_has (m : List (String × α)) (k : String)
    (h : mapHas m k) : (mapDel m k).length + 1 = m.length := by
  induction m with
  | nil => simp [mapHas, mapGet] at h
  | cons p rest ih =>
    rw [mapDel]
    by_cases hp : p.1 = k
    · simp [hp]
    · have h' : mapHas rest k := by
        simp only [mapHas, mapGet_cons, hp, if_false] at h
        exact h
      simp only [if_neg hp, List.length_cons]
      rw [← ih h']

theorem mapSet_length_le (m : List (String × α)) (k : String) (v : α) :
    (mapSet m k v).length ≤ m.length + 1 := by
  unfold mapSet
  by_cases h : mapHas m k <;> simp [h]

/-! ## Span entities (`span.ts`, `constants.ts`) -/

/-- `SpanType` enum (`constants.ts`). -/
inductive SpanType where
  | UNKNOWN | LLM | CHAT_MODEL | EMBEDDING | AGENT | RETRIEVER | TOOL | CUSTOM
deriving Repr, DecidableEq

/-- The string value of a `SpanType` enum member. -/
def SpanType.name : SpanType → String
  | .UNKNOWN => "UNKNOWN"
  | .LLM => "LLM"
  | .CHAT_MODEL => "CHAT_MODEL"
  | .EMBEDDING => "EMBEDDING"
  | .AGENT => "AGENT"
  | .RETRIEVER => "RETRIEVER"
  | .TOOL => "TOOL"
  | .CUSTOM => "CUSTOM"

namespace SpanAttributeKey

def EXPERIMENT_ID : String := "mlflow.experimentId"

def TRACE_ID : String := "mlflow.traceRequestId"

def INPUTS : String := "mlflow.spanInputs"

def OUTPUTS : String := "mlflow.spanOutputs"

def SPAN_TYPE : String := "mlflow.spanType"

end SpanAttributeKey

/-- Status codes shared by MLflow `SpanStatusCode` and the OTel status. -/
inductive StatusCode where
  | UNSET | OK | ERROR
deriving Repr, DecidableEq

/-- An OTel span status: a code with an optional message. -/
structure OtelStatus where
  code : StatusCode
  message : Option String := none
deriving Repr, DecidableEq

/-- Modelled from the spec: `span_status.ts` (class `SpanStatus`) is not in
the source snapshot — only its tests and callers are. Per the spec, a span
status is OK / ERROR / UNSET with an optional description, and converts
code-for-code to and from the OTel status (as `span_status.test.ts` pins
down for all three codes). -/
structure SpanStatus where
  statusCode : StatusCode
  description : Option String := none
deriving Repr, DecidableEq

/-- Modelled from the spec: `SpanStatus.fromOtelStatus` maps the OTel
status code across unchanged. -/
def SpanStatus.fromOtelStatus (s : OtelStatus) : SpanStatus :=
  ⟨s.code, s.message⟩

/-- Modelled from the spec: `SpanStatus.toOtelStatus` maps the MLflow
status code across unchanged. -/
def SpanStatus.toOtelStatus (s : SpanStatus) : OtelStatus :=
  ⟨s.statusCode, s.description⟩

/-- The slice of an underlying OTel SDK span's state the claims need.
`otelTraceId` is `spanContext().traceId`. -/
structure OtelSpanState where
  spanId : String
  otelTraceId : String := ""
  parentSpanId : Option String := none
  name : String := ""
  startTime : Int × Int := (0, 0)
  endTime : Option (Int × Int) := none
  status : OtelStatus := ⟨StatusCode.UNSET, none⟩
  ended : Bool := false
  attrs : OtelAttrs := []
deriving Repr

/-- OTel SDK `span.setStatus`: plain assignment, ignored once the span has
ended. -/
def otelSetStatus (s : OtelSpanState) (st : OtelStatus) : OtelSpanState :=
  if s.ended then s else { s with status := st }

/-- OTel SDK `span.setAttribute`: ignored once the span has ended. -/
def otelSetAttribute (s : OtelSpanState) (k : String) (v : OtelAttrVal) : OtelSpanState :=
  if s.ended then s else { s with attrs := mapSet s.attrs k v }

/-- OTel SDK `span.end`: marks the span ended at the given time (or the
current clock `now`); a second `end` is ignored. -/
def otelEnd (s : OtelSpanState) (endTime : Option (Int × Int)) (now : Int × Int) :
    OtelSpanState :=
  if s.ended then s
  else { s with ended := true, endTime := some (endTime.getD now) }

/-- `LiveSpan.setAttribute`: serialize through the mutable attribute
registry onto the OTel span. -/
def liveSetAttribute (s : OtelSpanState) (key : String) (value : JsonValue) :
    OtelSpanState :=
  otelSetAttribute s key (OtelAttrVal.str (stringify value))

/-- `LiveSpan.setOutputs`. -/
def liveSetOutputs (s : OtelSpanState) (outputs : JsonValue) : OtelSpanState :=
  liveSetAttribute s SpanAttributeKey.OUTPUTS outputs

/-- `LiveSpan.setInputs`. -/
def liveSetInputs (s : OtelSpanState) (inputs : JsonValue) : OtelSpanState :=
  liveSetAttribute s SpanAttributeKey.INPUTS inputs

/-- `LiveSpan.setAttributes`: set each entry in iteration order. -/
def liveSetAttributes (s : OtelSpanState) (attributes : List (String × JsonValue)) :
    OtelSpanState :=
  attributes.foldl (fun acc kv => liveSetAttribute acc kv.1 kv.2) s

/-- The `status` argument of `LiveSpan.setStatus` / `LiveSpan.end`: either
a `SpanStatus` object or a `SpanStatusCode` string. -/
inductive StatusArg where
  | status (st : SpanStatus)
  | code (c : StatusCode)
deriving Repr, DecidableEq

/-- `LiveSpan.setStatus`: a `SpanStatus` is converted with `toOtelStatus`;
a status-code string is first wrapped in a `SpanStatus` with the optional
description. -/
def liveSetStatus (s : OtelSpanState) (arg : StatusArg) (description : Option String) :
    OtelSpanState :=
  match arg with
  | .status st => otelSetStatus s st.toOtelStatus
  | .code c => otelSetStatus s (SpanStatus.mk c description).toOtelStatus

/-- `Span.status` getter: the OTel status converted to a `SpanStatus`. -/
def spanStatus (s : OtelSpanState) : SpanStatus :=
  SpanStatus.fromOtelStatus s.status

/-- `convertNanoSecondsToHrTime` on integer nanoseconds. -/
def convertNanoSecondsToHrTime (nanos : Int) : Int × Int :=
  (nanos / 1000000000, nanos % 1000000000)

/-- The options object of `LiveSpan.end`. -/
structure EndOptions where
  outputs : Option JsonValue := none
  attributes : Option (List (String × JsonValue)) := none
  status : Option StatusArg := none
  endTimeNs : Option Int := none

/-- `LiveSpan.end(options)`: apply outputs, attributes and status from the
options, then force the status to OK unless it is ERROR, then end the
underlying OTel span. -/
def liveEnd (s : OtelSpanState) (opts : EndOptions) (now : Int × Int) : OtelSpanState :=
  let s1 := match opts.outputs with
    | some v => liveSetOutputs s v
    | none => s
  let s2 := match opts.attributes with
    | some m => liveSetAttributes s1 m
    | none => s1
  let s3 := match opts.status with
    | some st => liveSetStatus s2 st none
    | none => s2
  let s4 := if (spanStatus s3).statusCode ≠ StatusCode.ERROR
    then liveSetStatus s3 (StatusArg.code StatusCode.OK) none
    else s3
  let endTime := match opts.endTimeNs with
    | some t => if t = 0 then none else some (convertNanoSecondsToHrTime t)
    | none => none
  otelEnd s4 endTime now

/-- The sentinel span id of an OTel `NonRecordingSpan`. -/
def INVALID_SPAN_ID : String := "0000000000000000"

/-- The `LiveSpan` constructor: stamp the trace id and the span type as
attributes on the underlying OTel span. -/
def liveSpanInit (s : OtelSpanState) (traceId : String) (spanType : SpanType) :
    OtelSpanState :=
  let s1 := liveSetAttribute s SpanAttributeKey.TRACE_ID (JsonValue.str traceId)
  liveSetAttribute s1 SpanAttributeKey.SPAN_TYPE (JsonValue.str spanType.name)

/-- The three kinds of span `createMlflowSpan` can produce. -/
inductive CreatedSpan where
  | noOp
  | immutable (s : OtelSpanState)
  | live (s : OtelSpanState)
deriving Repr

def CreatedSpan.isNoOp : CreatedSpan → Bool
  | .noOp => true
  | _ => false

def CreatedSpan.isImmutable : CreatedSpan → Bool
  | .immutable _ => true
  | _ => false

def CreatedSpan.isLive : CreatedSpan → Bool
  | .live _ => true
  | _ => false

/-- `createMlflowSpan`: a missing handle or the invalid-span sentinel id
yields a NoOpSpan; an already-ended handle an immutable Span; otherwise a
LiveSpan (with `spanType || SpanType.UNKNOWN`). -/
def createMlflowSpan (otelSpan : Option OtelSpanState) (traceId : String)
    (spanType : Option SpanType) : CreatedSpan :=
  match otelSpan with
  | none => CreatedSpan.noOp
  | some s =>
    if s.spanId = INVALID_SPAN_ID then CreatedSpan.noOp
    else if s.ended then CreatedSpan.immutable s
    else CreatedSpan.live (liveSpanInit s traceId (spanType.getD SpanType.UNKNOWN))

/-! ## Span name deduplication (`utils/index.ts`) -/

/-- First pass of `deduplicateSpanNamesInPlace`: count the occurrences of
each span name in a `Map`. -/
def countSpanNames (names : List String) : List (String × Nat) :=
  names.foldl (fun m name => mapSet m name ((mapGet m name).getD 0 + 1)) []

/-- Second pass: start an index of 1 for every name counted more than
once. -/
def initIndexes (counter : List (String × Nat)) : List (String × Nat) :=
  counter.foldl (fun m p => if p.2 > 1 then mapSet m p.1 1 else m) []

/-- Third pass: rewrite `name` to `name_i` for names with an index,
incrementing the index. -/
def renamePass (idx : List (String × Nat)) : List String → List String
  | [] => []
  | name :: rest =>
    match mapGet idx name with
    | some i => (name ++ "_" ++ Nat.repr i) :: renamePass (mapSet idx name (i + 1)) rest
    | none => name :: renamePass idx rest

/-- `deduplicateSpanNamesInPlace`, as the function it applies to the
sequence of span names (each span's `_span.name` is rewritten in place). -/
def deduplicateSpanNames (names : List String) : List String :=
  renamePass (initIndexes (countSpanNames names)) names

/-- The specification's description of deduplication, accumulator form:
`cnt` counts occurrences in the whole sequence, `seen` the occurrences
already passed; duplicated names get `name_<seen+1>`, unique names stay. -/
def dedupSpecAux (cnt : String → Nat) (seen : String → Nat) : List String → List String
  | [] => []
  | name :: rest =>
    (if 1 < cnt name then name ++ "_" ++ Nat.repr (seen name + 1) else name) ::
      dedupSpecAux cnt (fun x => if x = name then seen x + 1 else seen x) rest

/-- The specification's description of deduplication: every span whose name
occurs more than once becomes `name_k`, `k` its 1-based index among the
occurrences in sequence order; spans with unique names are unchanged. -/
def dedupSpecNames (names : List String) : List String :=
  dedupSpecAux (fun n => names.count n) (fun _ => 0) names

/-! ## Trace registry (`trace_manager.ts`) and exporter (`mlflow.ts`) -/

/-- Trace states (spec §6 grammar). Modelled from the spec:
`trace_state.ts` is not in the source snapshot. -/
inductive TraceState where
  | IN_PROGRESS | OK | ERROR
deriving Repr, DecidableEq

/-- Modelled from the spec: `fromOtelStatus` (`trace_state.ts`) is not in
the source snapshot; §4.5 sets the trace state from the root span's
terminal status (OK / ERROR). The UNSET case is unreachable after
`LiveSpan.end` and is mapped to IN_PROGRESS here. -/
def fromOtelStatus : StatusCode → TraceState
  | StatusCode.OK => TraceState.OK
  | StatusCode.ERROR => TraceState.ERROR
  | StatusCode.UNSET => TraceState.IN_PROGRESS

/-- `TraceInfo` (`trace_info.ts`); times in milliseconds as rational
numbers. The trace location is modelled by its experiment id
(`trace_location.ts` is not in the source snapshot). -/
structure TraceInfo where
  traceId : String
  experimentId : String
  requestTime : ℚ
  state : TraceState
  requestPreview : Option OtelAttrVal := none
  responsePreview : Option OtelAttrVal := none
  clientRequestId : Option String := none
  executionDuration : Option ℚ := none
  traceMetadata : List (String × String) := []
  tags : List (String × String) := []
deriving Repr

/-- The buffered `_Trace`: a `TraceInfo` plus the spans recorded so far,
keyed by span id. -/
structure InternalTrace where
  info : TraceInfo
  spanDict : List (String × OtelSpanState)
deriving Repr

/-- A materialized `Trace`: `TraceInfo` plus `TraceData` (its span list). -/
structure Trace where
  info : TraceInfo
  spans : List OtelSpanState
deriving Repr

/-- JavaScript truthiness of a raw OTel attribute value. -/
def attrTruthy : OtelAttrVal → Bool
  | OtelAttrVal.str s => !(s = "")
  | OtelAttrVal.other JsonValue.null => false
  | OtelAttrVal.other (JsonValue.bool b) => b
  | OtelAttrVal.other (JsonValue.num n) => !(n = 0)
  | OtelAttrVal.other (JsonValue.str s) => !(s = "")
  | OtelAttrVal.other (JsonValue.arr _) => true
  | OtelAttrVal.other (JsonValue.obj _) => true

/-- `root_span._span.attributes[key] || ''`: the raw stored attribute with
falsy values replaced by the empty string. -/
def rawAttrOr (attrs : OtelAttrs) (k : String) : OtelAttrVal :=
  match mapGet attrs k with
  | some v => if attrTruthy v then v else OtelAttrVal.str ""
  | none => OtelAttrVal.str ""

/-- `_Trace.toMlflowTrace`: collect the spans in insertion order, and copy
the root span's raw serialized inputs/outputs onto the request/response
previews. -/
def toMlflowTrace (t : InternalTrace) : Trace :=
  let spans := t.spanDict.map Prod.snd
  match spans.find? (fun s => s.parentSpanId = none) with
  | some root =>
    ⟨{ t.info with
        requestPreview := some (rawAttrOr root.attrs SpanAttributeKey.INPUTS),
        responsePreview := some (rawAttrOr root.attrs SpanAttributeKey.OUTPUTS) },
      spans⟩
  | none => ⟨t.info, spans⟩

/-- The in-memory state of `InMemoryTraceManager`: the TTL cache of
buffered traces keyed by MLflow trace id, and the OTel-id-to-MLflow-id
map. -/
structure RegistryState where
  traces : List (String × InternalTrace)
  otelIdToMlflowTraceId : List (String × String)
deriving Repr

/-- `LiveSpan.traceId` getter: the deserialized `mlflow.traceRequestId`
attribute (a string for every span stamped by the `LiveSpan`
constructor; the empty string stands for the untyped miss). -/
def liveSpanTraceId (s : OtelSpanState) : String :=
  match registryGet s.attrs SpanAttributeKey.TRACE_ID with
  | some (JsonValue.str t) => t
  | _ => ""

/-- `InMemoryTraceManager.registerTrace`. -/
def registerTrace (st : RegistryState) (otelTraceId : String) (info : TraceInfo) :
    RegistryState :=
  { traces := mapSet st.traces info.traceId ⟨info, []⟩,
    otelIdToMlflowTraceId := mapSet st.otelIdToMlflowTraceId otelTraceId info.traceId }

/-- `InMemoryTraceManager.registerSpan`: store the span in the buffered
trace matching its trace id; when no such trace exists, log and drop. -/
def registerSpan (st : RegistryState) (span : OtelSpanState) : RegistryState :=
  match mapGet st.traces (liveSpanTraceId span) with
  | some tr =>
    let tr2 : InternalTrace := { tr with spanDict := mapSet tr.spanDict span.spanId span }
    { st with traces := mapSet st.traces (liveSpanTraceId span) tr2 }
  | none => st

/-- `InMemoryTraceManager.getTrace` (`|| null`). -/
def getTrace (st : RegistryState) (traceId : String) : Option InternalTrace :=
  mapGet st.traces traceId

/-- `InMemoryTraceManager.getMlflowTraceIdFromOtelId` (`|| null`, so an
empty-string mapping also reads as null). -/
def getMlflowTraceIdFromOtelId (st : RegistryState) (otelTraceId : String) :
    Option String :=
  match mapGet st.otelIdToMlflowTraceId otelTraceId with
  | some t => if t = "" then none else some t
  | none => none

/-- `InMemoryTraceManager.getSpan`. -/
def getSpan (st : RegistryState) (traceId spanId : String) : Option OtelSpanState :=
  match mapGet st.traces traceId with
  | some tr => mapGet tr.spanDict spanId
  | none => none

/-- `InMemoryTraceManager.popTrace`: a falsy id mapping returns not-found
untouched; otherwise the mapping is deleted, and if the buffered trace is
present it is deleted and materialized, else not-found. -/
def popTrace (st : RegistryState) (otelTraceId : String) :
    Option Trace × RegistryState :=
  match mapGet st.otelIdToMlflowTraceId otelTraceId with
  | none => (none, st)
  | some mlflowTraceId =>
    if mlflowTraceId = "" then (none, st)
    else
      let st1 := { st with
        otelIdToMlflowTraceId := mapDel st.otelIdToMlflowTraceId otelTraceId }
      match mapGet st1.traces mlflowTraceId with
      | some tr =>
        (some (toMlflowTrace tr), { st1 with traces := mapDel st1.traces mlflowTraceId })
      | none => (none, st1)

/-- `convertHrTimeToNanoSeconds` over exact (rational) arithmetic. -/
def convertHrTimeToNanoSeconds (t : Int × Int) : ℚ :=
  (t.1 : ℚ) * 1000000000 + (t.2 : ℚ)

/-- Modelled from the spec: `TRACE_ID_PREFIX` (`constants.ts` in the
snapshot lacks it) — the distinct namespace prefix of generated trace
ids. -/
def TRACE_ID_PREFIX : String := "tr-"

/-- `generateTraceId`: prefix the OTel trace id. -/
def generateTraceId (otelTraceId : String) : String :=
  TRACE_ID_PREFIX ++ otelTraceId

/-- The `TraceInfo` that `MlflowSpanProcessor.onStart` builds for a root
span: request time is the span start time in milliseconds, state
IN_PROGRESS, duration 0. -/
def onStartRootTraceInfo (span : OtelSpanState) (experimentId : String) :
    TraceInfo :=
  { traceId := generateTraceId span.otelTraceId,
    experimentId := experimentId,
    requestTime := convertHrTimeToNanoSeconds span.startTime / 1000000,
    executionDuration := some 0,
    state := TraceState.IN_PROGRESS }

/-- `MlflowSpanProcessor.updateTraceInfo`: execution duration is the span
end time in milliseconds minus the request time; state from the span's
status. -/
def updateTraceInfo (info : TraceInfo) (span : OtelSpanState) : TraceInfo :=
  { info with
    executionDuration :=
      some (convertHrTimeToNanoSeconds (span.endTime.getD (0, 0)) / 1000000
        - info.requestTime),
    state := fromOtelStatus span.status.code }


theorem countFold (names : List String) (m : List (String × Nat)) (n : String) :
    mapGet (names.foldl (fun m name => mapSet m name ((mapGet m name).getD 0 + 1)) m) n =
      if names.count n = 0 then mapGet m n
      else some ((mapGet m n).getD 0 + names.count n) := by
  induction names generalizing m with
  | nil => simp
  | cons h t ih =>
    rw [List.foldl_cons, ih]
    by_cases hn : n = h
    · subst hn
      have hcnt : (n :: t).count n = t.count n + 1 := by simp [List.count_cons]
      rw [hcnt, mapGet_mapSet_self]
      by_cases hc : t.count n = 0
      · rw [if_pos hc, if_neg (by omega : ¬ (t.count n + 1 = 0))]
        simp [hc]
      · rw [if_neg hc, if_neg (by omega : ¬ (t.count n + 1 = 0))]
        simp only [Option.getD_some]
        congr 1
        omega
    · rw [mapGet_mapSet_ne _ _ _ _ hn]
      simp [List.count_cons, hn]

theorem countFold_keysUnique (names : List String) (m : List (String × Nat))
    (h : keysUnique m) :
    keysUnique (names.foldl (fun m name => mapSet m name ((mapGet m name).getD 0 + 1)) m) := by
  induction names generalizing m with
  | nil => exact h
  | cons x t ih =>
    rw [List.foldl_cons]
    exact ih _ (keysUnique_mapSet _ _ _ h)

theorem indexFold (counter : List (String × Nat)) (acc : List (String × Nat))
    (n : String) (hu : keysUnique counter) :
    mapGet (counter.foldl (fun m p => if p.2 > 1 then mapSet m p.1 1 else m) acc) n =
      match mapGet counter n with
      | some c => if c > 1 then some 1 else mapGet acc n
      | none => mapGet acc n := by
  induction counter generalizing acc with
  | nil => simp [mapGet_nil]
  | cons p t ih =>
    unfold keysUnique at hu
    simp only [List.map_cons, List.nodup_cons] at hu
    rw [List.foldl_cons]
    by_cases hc : p.2 > 1
    · rw [if_pos hc, ih _ hu.2, mapGet_cons]
      by_cases hn : p.1 = n
      · have ht : mapGet t n = none := mapGet_eq_none_of_not_mem t n (hn ▸ hu.1)
        rw [ht, if_pos hn]
        have hacc : mapGet (mapSet acc p.1 1) n = some 1 := by
          rw [hn]
          exact mapGet_mapSet_self acc n 1
        simp [hacc, hc]
      · rw [if_neg hn]
        have hacc : mapGet (mapSet acc p.1 1) n = mapGet acc n :=
          mapGet_mapSet_ne _ _ _ _ (fun hh => hn hh.symm)
        cases hmt : mapGet t n with
        | none => simp [hacc]
        | some c => by_cases hcc : c > 1 <;> simp [hcc, hacc]
    · rw [if_neg hc, ih _ hu.2, mapGet_cons]
      by_cases hn : p.1 = n
      · have ht : mapGet t n = none := mapGet_eq_none_of_not_mem t n (hn ▸ hu.1)
        rw [ht, if_pos hn]
        simp [hc]
      · rw [if_neg hn]

theorem renamePass_spec (cnt : String → Nat) (names : List String) :
    ∀ (idx : List (String × Nat)) (seen : String → Nat),
    (∀ n, mapGet idx n = if 1 < cnt n then some (seen n + 1) else none) →
    renamePass idx names = dedupSpecAux cnt seen names := by
  induction names with
  | nil => intro idx seen _; rfl
  | cons name rest ih =>
    intro idx seen H
    rw [renamePass, dedupSpecAux, H name]
    by_cases hc : 1 < cnt name
    · rw [if_pos hc, if_pos hc]
      simp only []
      congr 1
      apply ih
      intro n
      by_cases hn : n = name
      · subst hn
        rw [mapGet_mapSet_self, if_pos hc]
        simp
      · rw [mapGet_mapSet_ne _ _ _ _ hn, H n]
        simp [hn]
    · rw [if_neg hc, if_neg hc]
      simp only []
      congr 1
      apply ih
      intro n
      by_cases hn : n = name
      · subst hn
        rw [H n]
        simp [hc]
      · rw [H n]
        simp [hn]

theorem deduplicateSpanNames_eq_spec (names : List String) :
    deduplicateSpanNames names = dedupSpecNames names := by
  unfold deduplicateSpanNames dedupSpecNames
  apply renamePass_spec
  intro n
  unfold initIndexes countSpanNames
  rw [indexFold _ _ _ (countFold_keysUnique names [] keysUnique_nil)]
  rw [countFold names [] n]
  by_cases h0 : names.count n = 0
  · simp [h0, mapGet_nil]
  · rw [if_neg h0]
    simp [mapGet_nil]


/-! ### State-preservation lemmas for the span operations -/

theorem otelSetAttribute_ended (s : OtelSpanState) (k : String) (v : OtelAttrVal) :
    (otelSetAttribute s k v).ended = s.ended := by
  unfold otelSetAttribute; split <;> rfl

theorem otelSetAttribute_status (s : OtelSpanState) (k : String) (v : OtelAttrVal) :
    (otelSetAttribute s k v).status = s.status := by
  unfold otelSetAttribute; split <;> rfl

theorem otelSetStatus_ended (s : OtelSpanState) (st : OtelStatus) :
    (otelSetStatus s st).ended = s.ended := by
  unfold otelSetStatus; split <;> rfl

theorem otelSetStatus_attrs (s : OtelSpanState) (st : OtelStatus) :
    (otelSetStatus s st).attrs = s.attrs := by
  unfold otelSetStatus; split <;> rfl

theorem otelSetStatus_of_live (s : OtelSpanState) (st : OtelStatus)
    (h : s.ended = false) : (otelSetStatus s st).status = st := by
  unfold otelSetStatus
  rw [if_neg (by simp [h])]

theorem liveSetAttribute_ended (s : OtelSpanState) (k : String) (v : JsonValue) :
    (liveSetAttribute s k v).ended = s.ended :=
  otelSetAttribute_ended s k (OtelAttrVal.str (stringify v))

theorem liveSetAttribute_status (s : OtelSpanState) (k : String) (v : JsonValue) :
    (liveSetAttribute s k v).status = s.status :=
  otelSetAttribute_status s k (OtelAttrVal.str (stringify v))

theorem liveSetAttributes_ended (m : List (String × JsonValue)) (s : OtelSpanState) :
    (liveSetAttributes s m).ended = s.ended := by
  induction m generalizing s with
  | nil => rfl
  | cons kv t ih =>
    unfold liveSetAttributes at ih ⊢
    rw [List.foldl_cons, ih, liveSetAttribute_ended]

theorem liveSetAttributes_status (m : List (String × JsonValue)) (s : OtelSpanState) :
    (liveSetAttributes s m).status = s.status := by
  induction m generalizing s with
  | nil => rfl
  | cons kv t ih =>
    unfold liveSetAttributes at ih ⊢
    rw [List.foldl_cons, ih, liveSetAttribute_status]

theorem liveSetStatus_ended (s : OtelSpanState) (arg : StatusArg) (d : Option String) :
    (liveSetStatus s arg d).ended = s.ended := by
  cases arg <;> apply otelSetStatus_ended

theorem liveSetStatus_attrs (s : OtelSpanState) (arg : StatusArg) (d : Option String) :
    (liveSetStatus s arg d).attrs = s.attrs := by
  cases arg <;> apply otelSetStatus_attrs

theorem otelEnd_attrs (s : OtelSpanState) (t : Option (Int × Int)) (now : Int × Int) :
    (otelEnd s t now).attrs = s.attrs := by
  unfold otelEnd; split <;> rfl

theorem otelEnd_status (s : OtelSpanState) (t : Option (Int × Int)) (now : Int × Int) :
    (otelEnd s t now).status = s.status := by
  unfold otelEnd; split <;> rfl

theorem otelEnd_ended_of_live (s : OtelSpanState) (t : Option (Int × Int))
    (now : Int × Int) (h : s.ended = false) : (otelEnd s t now).ended = true := by
  unfold otelEnd
  rw [if_neg (by simp [h])]

/-- The status code carried by a `setStatus` argument. -/
def statusArgCode : StatusArg → StatusCode
  | StatusArg.status st => st.statusCode
  | StatusArg.code c => c

theorem liveSetStatus_code_of_live (s : OtelSpanState) (arg : StatusArg)
    (d : Option String) (h : s.ended = false) :
    (liveSetStatus s arg d).status.code = statusArgCode arg := by
  cases arg with
  | status st =>
    unfold liveSetStatus statusArgCode
    rw [otelSetStatus_of_live s _ h]
    rfl
  | code c =>
    unfold liveSetStatus statusArgCode
    rw [otelSetStatus_of_live s _ h]
    rfl

theorem registryGet_of_stored (attrs : OtelAttrs) (k : String) (v : JsonValue)
    (h : mapGet attrs k = some (OtelAttrVal.str (stringify v))) :
    registryGet attrs k = some v := by
  unfold registryGet
  rw [h]
  simp only []
  rw [if_neg (stringify_ne_empty v)]
  rw [parseJson_stringify v]

/-- The state of `LiveSpan.end` after outputs, attributes and status from
the options have been applied, before the OK override. -/
def liveEndStage3 (s : OtelSpanState) (opts : EndOptions) : OtelSpanState :=
  let s1 := match opts.outputs with
    | some v => liveSetOutputs s v
    | none => s
  let s2 := match opts.attributes with
    | some m => liveSetAttributes s1 m
    | none => s1
  match opts.status with
  | some st => liveSetStatus s2 st none
  | none => s2

/-- The state of `LiveSpan.end` after the OK override, before the
underlying span is ended. -/
def liveEndStage4 (s : OtelSpanState) (opts : EndOptions) : OtelSpanState :=
  if (spanStatus (liveEndStage3 s opts)).statusCode ≠ StatusCode.ERROR
  then liveSetStatus (liveEndStage3 s opts) (StatusArg.code StatusCode.OK) none
  else liveEndStage3 s opts

theorem liveEnd_eq_stages (s : OtelSpanState) (opts : EndOptions) (now : Int × Int) :
    liveEnd s opts now =
      otelEnd (liveEndStage4 s opts)
        (match opts.endTimeNs with
          | some t => if t = 0 then none else some (convertNanoSecondsToHrTime t)
          | none => none) now :=
  rfl

theorem liveEndStage3_ended (s : OtelSpanState) (opts : EndOptions)
    (h : s.ended = false) : (liveEndStage3 s opts).ended = false := by
  obtain ⟨o, a, stArg, e⟩ := opts
  unfold liveEndStage3
  cases stArg <;> cases a <;> cases o <;>
    simp [liveSetStatus_ended, liveSetAttributes_ended, liveSetOutputs,
      liveSetAttribute_ended, h]

theorem liveEndStage4_ended (s : OtelSpanState) (opts : EndOptions)
    (h : s.ended = false) : (liveEndStage4 s opts).ended = false := by
  unfold liveEndStage4
  split
  · rw [liveSetStatus_ended]
    exact liveEndStage3_ended s opts h
  · exact liveEndStage3_ended s opts h

theorem spanStatus_statusCode (s : OtelSpanState) :
    (spanStatus s).statusCode = s.status.code := rfl

theorem liveEndStage4_code (s : OtelSpanState) (opts : EndOptions)
    (h : s.ended = false) :
    (liveEndStage4 s opts).status.code = StatusCode.OK
      ∨ (liveEndStage4 s opts).status.code = StatusCode.ERROR := by
  unfold liveEndStage4
  by_cases hc : (spanStatus (liveEndStage3 s opts)).statusCode = StatusCode.ERROR
  · rw [if_neg (by simp [hc])]
    right
    rw [← spanStatus_statusCode]
    exact hc
  · rw [if_pos (by simp [hc])]
    left
    rw [liveSetStatus_code_of_live _ _ _ (liveEndStage3_ended s opts h)]
    rfl

theorem liveEndStage3_code_of_error (s : OtelSpanState) (opts : EndOptions)
    (arg : StatusArg) (hs : opts.status = some arg)
    (he : statusArgCode arg = StatusCode.ERROR) (h : s.ended = false) :
    (liveEndStage3 s opts).status.code = StatusCode.ERROR := by
  obtain ⟨o, a, stArg, e⟩ := opts
  simp only at hs
  subst hs
  unfold liveEndStage3
  simp only []
  rw [liveSetStatus_code_of_live]
  · exact he
  · cases a <;> cases o <;>
      simp [liveSetAttributes_ended, liveSetOutputs, liveSetAttribute_ended, h]

theorem liveEndStage4_code_of_error (s : OtelSpanState) (opts : EndOptions)
    (arg : StatusArg) (hs : opts.status = some arg)
    (he : statusArgCode arg = StatusCode.ERROR) (h : s.ended = false) :
    (liveEndStage4 s opts).status.code = StatusCode.ERROR := by
  unfold liveEndStage4
  rw [if_neg (by
    simp only [spanStatus_statusCode]
    simp [liveEndStage3_code_of_error s opts arg hs he h])]
  exact liveEndStage3_code_of_error s opts arg hs he h

theorem liveSetAttribute_attrs_of_live (s : OtelSpanState) (k : String)
    (v : JsonValue) (h : s.ended = false) :
    (liveSetAttribute s k v).attrs = mapSet s.attrs k (OtelAttrVal.str (stringify v)) := by
  unfold liveSetAttribute otelSetAttribute
  rw [if_neg (by simp [h])]

theorem liveEndStage4_attrs_outputs (s : OtelSpanState) (opts : EndOptions)
    (v : JsonValue) (ho : opts.outputs = some v) (ha : opts.attributes = none)
    (h : s.ended = false) :
    mapGet (liveEndStage4 s opts).attrs SpanAttributeKey.OUTPUTS
      = some (OtelAttrVal.str (stringify v)) := by
  have h3 : (liveEndStage3 s opts).attrs
      = mapSet s.attrs SpanAttributeKey.OUTPUTS (OtelAttrVal.str (stringify v)) := by
    obtain ⟨o, a, stArg, e⟩ := opts
    simp only at ho ha
    subst ho
    subst ha
    unfold liveEndStage3
    cases stArg with
    | none =>
      simp only []
      exact liveSetAttribute_attrs_of_live s _ v h
    | some arg =>
      simp only []
      rw [liveSetStatus_attrs]
      exact liveSetAttribute_attrs_of_live s _ v h
  have h4 : (liveEndStage4 s opts).attrs = (liveEndStage3 s opts).attrs := by
    unfold liveEndStage4
    split
    · rw [liveSetStatus_attrs]
    · rfl
  rw [h4, h3, mapGet_mapSet_self]

/-- C6: `LiveSpan.end(options)` applies the supplied outputs, attributes
and status first, then forces a non-ERROR status to OK before ending the
underlying span: the ended span's status is OK or ERROR (never UNSET), an
ERROR supplied in the options survives, and supplied outputs are readable
back after the call. -/
theorem liveEnd_status_ok_or_error (s : OtelSpanState) (opts : EndOptions)
    (now : Int × Int) (h : s.ended = false) :
    (liveEnd s opts now).ended = true
    ∧ ((spanStatus (liveEnd s opts now)).statusCode = StatusCode.OK
        ∨ (spanStatus (liveEnd s opts now)).statusCode = StatusCode.ERROR)
    ∧ (∀ arg, opts.status = some arg → statusArgCode arg = StatusCode.ERROR →
        (spanStatus (liveEnd s opts now)).statusCode = StatusCode.ERROR)
    ∧ (∀ v, opts.outputs = some v → opts.attributes = none →
        registryGet (liveEnd s opts now).attrs SpanAttributeKey.OUTPUTS = some v) := by
  rw [liveEnd_eq_stages]
  refine ⟨?_, ?_, ?_, ?_⟩
  · exact otelEnd_ended_of_live _ _ _ (liveEndStage4_ended s opts h)
  · rw [spanStatus_statusCode, otelEnd_status]
    exact liveEndStage4_code s opts h
  · intro arg hs he
    rw [spanStatus_statusCode, otelEnd_status]
    exact liveEndStage4_code_of_error s opts arg hs he h
  · intro v ho ha
    rw [otelEnd_attrs]
    exact registryGet_of_stored _ _ _ (liveEndStage4_attrs_outputs s opts v ho ha h)

/-- Witness for C6 at a fresh live span ended with outputs and no extra
attributes or status. -/
theorem liveEnd_status_ok_or_error_witness :
    ({ spanId := "0123456789abcdef" } : OtelSpanState).ended = false
    ∧ ((liveEnd { spanId := "0123456789abcdef" }
          { outputs := some (JsonValue.num 7) } (0, 0)).ended = true
        ∧ ((spanStatus (liveEnd { spanId := "0123456789abcdef" }
              { outputs := some (JsonValue.num 7) } (0, 0))).statusCode = StatusCode.OK
            ∨ (spanStatus (liveEnd { spanId := "0123456789abcdef" }
                { outputs := some (JsonValue.num 7) } (0, 0))).statusCode = StatusCode.ERROR)
        ∧ (∀ arg, ({ outputs := some (JsonValue.num 7) } : EndOptions).status = some arg →
            statusArgCode arg = StatusCode.ERROR →
            (spanStatus (liveEnd { spanId := "0123456789abcdef" }
              { outputs := some (JsonValue.num 7) } (0, 0))).statusCode = StatusCode.ERROR)
        ∧ (∀ v, ({ outputs := some (JsonValue.num 7) } : EndOptions).outputs = some v →
            ({ outputs := some (JsonValue.num 7) } : EndOptions).attributes = none →
            registryGet (liveEnd { spanId := "0123456789abcdef" }
              { outputs := some (JsonValue.num 7) } (0, 0)).attrs
              SpanAttributeKey.OUTPUTS = some v)) :=
  ⟨rfl, liveEnd_status_ok_or_error { spanId := "0123456789abcdef" }
    { outputs := some (JsonValue.num 7) } (0, 0) rfl⟩


/-- C4: setting a JSON-serializable value in the mutable span attribute
registry and reading the same key back returns the value intact: the value
survives the serialize-on-set, deserialize-on-get round trip. -/
theorem registry_set_get_roundtrip (attrs : OtelAttrs) (k : String) (v : JsonValue) :
    registryGet (registrySet attrs k v) k = some v := by
  unfold registrySet
  exact registryGet_of_stored _ _ _ (mapGet_mapSet_self attrs k _)

theorem mapGet_none_of_cons_none (p : String × α) (m : List (String × α))
    (k : String) (h : mapGet (p :: m) k = none) : mapGet m k = none := by
  rw [mapGet_cons] at h
  by_cases hp : p.1 = k
  · rw [if_pos hp] at h
    exact Option.noConfusion h
  · rwa [if_neg hp] at h

/-- C5: on the cached (immutable-span) registry, `set` always throws and
touches no state; `get` keeps the memo at or below 128 entries, and a miss
at capacity evicts the least-recently-used (first) entry and appends the
fresh read at the most-recently-used end. -/
theorem cachedRegistry_set_throws_and_lru (attrs : OtelAttrs) (cache : AttrCache)
    (k : String) (v : JsonValue) :
    cachedSet attrs cache k v
        = Except.error "The attributes of the immutable span must not be updated."
    ∧ (cache.length ≤ 128 → ((cachedGet attrs cache k).2).length ≤ 128)
    ∧ (∀ p rest, cache = p :: rest → 128 ≤ cache.length → mapGet cache k = none →
        (cachedGet attrs cache k).1 = registryGet attrs k
        ∧ (cachedGet attrs cache k).2 = rest ++ [(k, registryGet attrs k)]) := by
  refine ⟨rfl, ?_, ?_⟩
  · intro hlen
    unfold cachedGet
    cases hget : mapGet cache k with
    | some v0 =>
      simp only []
      have hdel := mapDel_length_of_has cache k (by simp [mapHas, hget])
      have hset := mapSet_length_le (mapDel cache k) k v0
      omega
    | none =>
      simp only []
      by_cases hcap : 128 ≤ cache.length
      · rw [if_pos hcap]
        cases cache with
        | nil => simp at hcap
        | cons p rest =>
          have hdel : mapDel (p :: rest) p.1 = rest := by
            unfold mapDel
            rw [if_pos rfl]
          show (mapSet (mapDel (p :: rest) p.1) k (registryGet attrs k)).length ≤ 128
          rw [hdel]
          have hset2 := mapSet_length_le rest k (registryGet attrs k)
          simp only [List.length_cons] at hcap hlen
          omega
      · rw [if_neg hcap]
        have hset := mapSet_length_le cache k (registryGet attrs k)
        omega
  · intro p rest hc hcap hget
    subst hc
    have hdel : mapDel (p :: rest) p.1 = rest := by
      unfold mapDel
      rw [if_pos rfl]
    have hres : cachedGet attrs (p :: rest) k
        = (registryGet attrs k, rest ++ [(k, registryGet attrs k)]) := by
      unfold cachedGet
      rw [hget]
      simp only []
      rw [if_pos hcap]
      show (registryGet attrs k,
        mapSet (mapDel (p :: rest) p.1) k (registryGet attrs k)) = _
      rw [hdel]
      unfold mapSet
      rw [if_neg (by
        simp only [mapHas]
        rw [mapGet_none_of_cons_none p rest k hget]
        simp)]
    rw [hres]
    exact ⟨rfl, rfl⟩

/-- A full 128-entry cache for the C5 witness, its head explicit. -/
def lruWitnessTail : AttrCache :=
  (List.range 127).map (fun i => (Nat.repr (i + 1), none))

/-- The C5 witness cache (128 entries, "0" least recently used). -/
def lruWitnessCache : AttrCache :=
  ("0", none) :: lruWitnessTail

/-- Witness for C5 at a full 128-entry cache missing the probed key: the
head entry is evicted and the fresh read appended. -/
theorem cachedRegistry_set_throws_and_lru_witness :
    (cachedGet [] lruWitnessCache "k").1 = registryGet [] "k"
    ∧ (cachedGet [] lruWitnessCache "k").2
        = lruWitnessTail ++ [("k", registryGet [] "k")] :=
  (cachedRegistry_set_throws_and_lru [] lruWitnessCache "k" JsonValue.null).2.2
    ("0", none) lruWitnessTail rfl
    (by simp [lruWitnessCache, lruWitnessTail])
    (by rfl)

/-- C7: `createMlflowSpan` never throws (it is total) and classifies its
input exactly: NoOpSpan for a missing handle or the invalid-span sentinel
id, an immutable Span for an already-ended handle, a LiveSpan otherwise. -/
theorem createMlflowSpan_classification (otelSpan : Option OtelSpanState)
    (traceId : String) (spanType : Option SpanType) :
    ((createMlflowSpan otelSpan traceId spanType).isNoOp = true
      ↔ otelSpan = none ∨ ∃ s, otelSpan = some s ∧ s.spanId = INVALID_SPAN_ID)
    ∧ ((createMlflowSpan otelSpan traceId spanType).isImmutable = true
      ↔ ∃ s, otelSpan = some s ∧ s.spanId ≠ INVALID_SPAN_ID ∧ s.ended = true)
    ∧ ((createMlflowSpan otelSpan traceId spanType).isLive = true
      ↔ ∃ s, otelSpan = some s ∧ s.spanId ≠ INVALID_SPAN_ID ∧ s.ended = false) := by
  cases otelSpan with
  | none =>
    refine ⟨?_, ?_, ?_⟩ <;> simp [createMlflowSpan, CreatedSpan.isNoOp,
      CreatedSpan.isImmutable, CreatedSpan.isLive]
  | some s =>
    by_cases hid : s.spanId = INVALID_SPAN_ID
    · refine ⟨?_, ?_, ?_⟩ <;>
        simp [createMlflowSpan, hid, CreatedSpan.isNoOp, CreatedSpan.isImmutable,
          CreatedSpan.isLive]
    · cases hend : s.ended
      · refine ⟨?_, ?_, ?_⟩ <;>
          simp [createMlflowSpan, hid, hend, CreatedSpan.isNoOp,
            CreatedSpan.isImmutable, CreatedSpan.isLive]
      · refine ⟨?_, ?_, ?_⟩ <;>
          simp [createMlflowSpan, hid, hend, CreatedSpan.isNoOp,
            CreatedSpan.isImmutable, CreatedSpan.isLive]


/-! ### Trace registry and exporter claims -/

/-- The registry state of the C1 counterexample: an id mapping whose
buffered trace entry is gone (as after TTL eviction of the entry alone). -/
def c1State : RegistryState :=
  { traces := [], otelIdToMlflowTraceId := [("otel-1", "tr-1")] }

/-- C1 counterexample: `popTrace` returns not-found because the buffered
entry is missing, yet the id mapping has been removed — the state after the
call differs from the state before. -/
theorem popTrace_not_found_can_change_state :
    (popTrace c1State "otel-1").1 = none
    ∧ (popTrace c1State "otel-1").2.otelIdToMlflowTraceId
        ≠ c1State.otelIdToMlflowTraceId := by
  refine ⟨rfl, ?_⟩
  intro h
  have : ([] : List (String × String)) = [("otel-1", "tr-1")] := h
  exact List.noConfusion this

/-- C1 amended: when `popTrace` returns not-found, no buffered trace entry
is removed, and the only possible change is the removal of the queried id
mapping itself — which happens exactly when the mapping was present (and
nonempty) but the buffered entry was missing; when the id mapping is
absent the whole state is unchanged. -/
theorem popTrace_none_mapping (st : RegistryState) (o : String)
    (hm : mapGet st.otelIdToMlflowTraceId o = none) :
    popTrace st o = (none, st) := by
  unfold popTrace
  rw [hm]

theorem popTrace_some_mapping (st : RegistryState) (o id : String)
    (hm : mapGet st.otelIdToMlflowTraceId o = some id) :
    popTrace st o =
      if id = "" then (none, st)
      else
        match mapGet st.traces id with
        | some tr =>
          (some (toMlflowTrace tr),
            ⟨mapDel st.traces id, mapDel st.otelIdToMlflowTraceId o⟩)
        | none => (none, ⟨st.traces, mapDel st.otelIdToMlflowTraceId o⟩) := by
  unfold popTrace
  rw [hm]

/-- C1 amended: when `popTrace` returns not-found, no buffered trace entry
is removed, and the only possible change is the removal of the queried id
mapping itself — which happens exactly when the mapping was present (and
nonempty) but the buffered entry was missing; when the id mapping is
absent the whole state is unchanged. -/
theorem popTrace_not_found_effect (st : RegistryState) (otelTraceId : String)
    (h : (popTrace st otelTraceId).1 = none) :
    (popTrace st otelTraceId).2.traces = st.traces
    ∧ ((popTrace st otelTraceId).2.otelIdToMlflowTraceId = st.otelIdToMlflowTraceId
        ∨ (popTrace st otelTraceId).2.otelIdToMlflowTraceId
            = mapDel st.otelIdToMlflowTraceId otelTraceId)
    ∧ (mapGet st.otelIdToMlflowTraceId otelTraceId = none →
        (popTrace st otelTraceId).2 = st) := by
  cases hm : mapGet st.otelIdToMlflowTraceId otelTraceId with
  | none =>
    rw [popTrace_none_mapping st otelTraceId hm]
    exact ⟨rfl, Or.inl rfl, fun _ => rfl⟩
  | some id =>
    rw [popTrace_some_mapping st otelTraceId id hm] at h ⊢
    by_cases hid : id = ""
    · rw [if_pos hid]
      exact ⟨rfl, Or.inl rfl, fun hn => False.elim (Option.noConfusion hn)⟩
    · rw [if_neg hid] at h ⊢
      cases ht : mapGet st.traces id with
      | some tr =>
        rw [ht] at h
        simp at h
      | none =>
        exact ⟨rfl, Or.inr rfl, fun hn => False.elim (Option.noConfusion hn)⟩

/-- Witness for the amended C1 at the empty registry. -/
theorem popTrace_not_found_effect_witness :
    (popTrace ⟨[], []⟩ "otel-9").2.traces = (⟨[], []⟩ : RegistryState).traces
    ∧ ((popTrace ⟨[], []⟩ "otel-9").2.otelIdToMlflowTraceId
          = (⟨[], []⟩ : RegistryState).otelIdToMlflowTraceId
        ∨ (popTrace ⟨[], []⟩ "otel-9").2.otelIdToMlflowTraceId
            = mapDel (⟨[], []⟩ : RegistryState).otelIdToMlflowTraceId "otel-9")
    ∧ (mapGet (⟨[], []⟩ : RegistryState).otelIdToMlflowTraceId "otel-9" = none →
        (popTrace ⟨[], []⟩ "otel-9").2 = ⟨[], []⟩) :=
  popTrace_not_found_effect ⟨[], []⟩ "otel-9" rfl

/-- C2: `popTrace` is destructive — after a successful pop, a second call
for the same underlying (OTel) trace id returns not-found. -/
theorem popTrace_destructive (st : RegistryState) (otelTraceId : String) (tr : Trace)
    (hu : keysUnique st.otelIdToMlflowTraceId)
    (h : (popTrace st otelTraceId).1 = some tr) :
    (popTrace (popTrace st otelTraceId).2 otelTraceId).1 = none := by
  cases hm : mapGet st.otelIdToMlflowTraceId otelTraceId with
  | none =>
    rw [popTrace_none_mapping st otelTraceId hm] at h
    simp at h
  | some id =>
    rw [popTrace_some_mapping st otelTraceId id hm] at h ⊢
    by_cases hid : id = ""
    · rw [if_pos hid] at h
      simp at h
    · rw [if_neg hid] at h ⊢
      cases ht : mapGet st.traces id with
      | none =>
        rw [ht] at h
        simp at h
      | some tr0 =>
        rw [popTrace_none_mapping]
        exact mapGet_mapDel_self _ _ hu

/-- The trace info of the C2 witness state. -/
def c2Info : TraceInfo :=
  { traceId := "tr-1", experimentId := "exp-1", requestTime := 0,
    state := TraceState.IN_PROGRESS }

/-- The registry state of the C2 witness: one buffered trace and its id
mapping. -/
def c2State : RegistryState :=
  { traces := [("tr-1", ⟨c2Info, []⟩)], otelIdToMlflowTraceId := [("otel-1", "tr-1")] }

/-- Witness for C2: a concrete successful pop followed by a not-found
second pop. -/
theorem popTrace_destructive_witness :
    (popTrace (popTrace c2State "otel-1").2 "otel-1").1 = none :=
  popTrace_destructive c2State "otel-1" (toMlflowTrace ⟨c2Info, []⟩)
    (by decide) rfl

/-- C8: `registerSpan` with no buffered trace for the span's trace id
leaves the whole registry untouched (spans cannot resurrect an expired
trace); with a buffered trace present it stores the span there keyed by
span id and touches no other trace and no id mapping. -/
theorem registerSpan_drop_or_store (st : RegistryState) (span : OtelSpanState) :
    (mapGet st.traces (liveSpanTraceId span) = none → registerSpan st span = st)
    ∧ (∀ tr, mapGet st.traces (liveSpanTraceId span) = some tr →
        mapGet (registerSpan st span).traces (liveSpanTraceId span)
          = some { tr with spanDict := mapSet tr.spanDict span.spanId span }
        ∧ (∀ tid, tid ≠ liveSpanTraceId span →
            mapGet (registerSpan st span).traces tid = mapGet st.traces tid)
        ∧ (registerSpan st span).otelIdToMlflowTraceId
            = st.otelIdToMlflowTraceId) := by
  constructor
  · intro h
    unfold registerSpan
    rw [h]
  · intro tr h
    unfold registerSpan
    rw [h]
    refine ⟨mapGet_mapSet_self _ _ _, ?_, rfl⟩
    intro tid ht
    exact mapGet_mapSet_ne _ _ _ _ ht

/-- Witness for C8: a span registered against the empty registry is
dropped without any state change. -/
theorem registerSpan_drop_or_store_witness :
    registerSpan ⟨[], []⟩ { spanId := "0123456789abcdef" } = (⟨[], []⟩ : RegistryState) :=
  (registerSpan_drop_or_store ⟨[], []⟩ { spanId := "0123456789abcdef" }).1 rfl

/-- C9: when the root span ends, the execution duration recorded on a
trace info whose request time was the root span's start time equals the
span's end time minus its start time, expressed in milliseconds. -/
theorem executionDuration_is_elapsed_ms (root : OtelSpanState) (e : Int × Int)
    (experimentId : String) :
    (updateTraceInfo (onStartRootTraceInfo root experimentId)
        { root with endTime := some e }).executionDuration
      = some ((convertHrTimeToNanoSeconds e
          - convertHrTimeToNanoSeconds root.startTime) / 1000000) := by
  unfold updateTraceInfo onStartRootTraceInfo
  simp only [Option.getD_some]
  congr 1
  rw [sub_div]

/-- C3: span-name deduplication computes exactly the specification's
rewrite — every name occurring more than once becomes `name_k` with `k` its
1-based index among the occurrences in sequence order, unique names are
untouched — and in particular maps [red, blue, red, green, blue, red] to
[red_1, blue_1, red_2, green, blue_2, red_3]. -/
theorem deduplicateSpanNames_matches_spec :
    (∀ names : List String, deduplicateSpanNames names = dedupSpecNames names)
    ∧ deduplicateSpanNames ["red", "blue", "red", "green", "blue", "red"]
        = ["red_1", "blue_1", "red_2", "green", "blue_2", "red_3"] :=
  ⟨deduplicateSpanNames_eq_spec, by rfl⟩

/-- C10: deduplication does not guarantee distinct results — on
[red, red, red_1] the renamed first duplicate collides with the untouched
unique span, so red_1 appears twice in the output. -/
theorem deduplicateSpanNames_can_collide :
    deduplicateSpanNames ["red", "red", "red_1"] = ["red_1", "red_2", "red_1"]
    ∧ ¬ (deduplicateSpanNames ["red", "red", "red_1"]).Nodup :=
  ⟨by rfl, by decide⟩

end MlflowTracing
